import Mathlib

/-!
Verification development for the OCR postprocess plugin
(`ocr_postprocess.cpp`): charset loading, the detection stage
(`paddleocr_det`), the recognition stage (`paddleocr_recognize`),
crop/region selection and the rectangle geometry utilities.

Real arithmetic of the C++ code (float/double) is embedded over `ℚ`;
machine integers over `ℤ`.  `std::round` (half away from zero) is
embedded as `cround`.
-/

namespace Ocr

/-- Embedding of C `std::round`: nearest integer, halves away from zero. -/
def cround (q : ℚ) : ℤ := if 0 ≤ q then ⌊q + 1/2⌋ else -⌊(1/2) - q⌋

/-! ## Charset loading (`load_default_charset`, `load_charset_from_file`) -/

/-- The built-in default charset, transcribed entry by entry from
`load_default_charset`: blank, digits, `:`..`@`, `A`-`Z`, `[`..backtick,
`a`-`z`, four high symbols, `!`..`/`, and a final space. -/
def load_default_charset : List String :=
  ["blank",
   "0", "1", "2", "3", "4", "5", "6", "7", "8", "9",
   ":", ";", "<", "=", ">", "?", "@",
   "A", "B", "C", "D", "E", "F", "G", "H", "I", "J", "K", "L", "M",
   "N", "O", "P", "Q", "R", "S", "T", "U", "V", "W", "X", "Y", "Z",
   "[", "\\", "]", "^", "_", "`",
   "a", "b", "c", "d", "e", "f", "g", "h", "i", "j", "k", "l", "m",
   "n", "o", "p", "q", "r", "s", "t", "u", "v", "w", "x", "y", "z",
   "\x7b", "|", "\x7d", "~",
   "!", "\"", "#", "$", "%", "&", "\x27", "(", ")", "*", "+", ",", "-", ".", "/",
   " "]

/-- Embedding of `load_charset_from_file`.  The file system is made explicit:
`file = none` models an absent (unopenable) file, `file = some lines` models a
readable file whose `getline` lines are `lines`.  An empty configured path
loads the default charset; an absent file raises; a file with zero lines
falls back to the default charset. -/
def load_charset_from_file (charset_path : String)
    (file : Option (List String)) : Except String (List String) :=
  if charset_path = "" then .ok load_default_charset
  else
    match file with
    | none => .error ("Failed to open charset file: " ++ charset_path)
    | some lines => if lines = [] then .ok load_default_charset else .ok lines

/-! ## Adaptive binarization threshold (`paddleocr_det`, step 3) -/

/-- The adaptive threshold chosen by `paddleocr_det` from the configured
`det_bin_thresh` and the foreground ratio measured at that threshold. -/
def chosen_bin_thr (det_bin_thresh fg_ratio_default : ℚ) : ℚ :=
  if fg_ratio_default < 3/1000 then max (15/100) (det_bin_thresh * (8/10))
  else if fg_ratio_default > 8/100 then min (75/100) (det_bin_thresh * (12/10))
  else det_bin_thresh

/-! ## Rectangle geometry -/

/-- `cv::Rect` with integer coordinates: `x`, `y`, `width`, `height`. -/
structure Rect where
  x : ℤ
  y : ℤ
  w : ℤ
  h : ℤ
deriving DecidableEq, Repr

/-- `cv::Rect` union (`operator |=`): an empty operand yields the other,
otherwise the bounding box of the two. -/
def rectUnion (a b : Rect) : Rect :=
  if a.w ≤ 0 ∨ a.h ≤ 0 then b
  else if b.w ≤ 0 ∨ b.h ≤ 0 then a
  else { x := min a.x b.x,
         y := min a.y b.y,
         w := max (a.x + a.w) (b.x + b.w) - min a.x b.x,
         h := max (a.y + a.h) (b.y + b.h) - min a.y b.y }

/-- The vertical overlap ratio of `merge_horizontal_boxes`:
intersection height over the smaller height (at least 1). -/
def yOverlapRatio (a b : Rect) : ℚ :=
  let top := max a.y b.y
  let bot := min (a.y + a.h) (b.y + b.h)
  let inter := max 0 (bot - top)
  let minH := max 1 (min a.h b.h)
  (inter : ℚ) / (minH : ℚ)

/-- Insert a rectangle into a list sorted by ascending left edge (stable).
This instantiates the unspecified tie order of `std::sort` with the
comparator `a.x < b.x`. -/
def insertByX (r : Rect) : List Rect → List Rect
  | [] => [r]
  | s :: rest => if r.x ≤ s.x then r :: s :: rest else s :: insertByX r rest

/-- Stable sort by ascending left edge, modelling
`std::sort(..., [](a,b){ return a.x < b.x; })`. -/
def sortByX : List Rect → List Rect
  | [] => []
  | r :: rest => insertByX r (sortByX rest)

/-- The greedy left-to-right run loop of `merge_horizontal_boxes`:
merge the running rectangle with the next when the horizontal gap is at
most `maxGap` and the vertical overlap ratio is at least `ratio`,
otherwise close the run. -/
def mergeStep (maxGap : ℤ) (ratio : ℚ) : Rect → List Rect → List Rect
  | run, [] => [run]
  | run, next :: rest =>
    if next.x - (run.x + run.w) ≤ maxGap ∧ ratio ≤ yOverlapRatio run next then
      mergeStep maxGap ratio (rectUnion run next) rest
    else
      run :: mergeStep maxGap ratio next rest

/-- Embedding of `merge_horizontal_boxes`: lists of at most one rectangle
are returned unchanged; otherwise sort by left edge and run the greedy
merge loop. -/
def merge_horizontal_boxes (rects : List Rect) (max_gap_px : ℤ)
    (min_y_overlap_ratio : ℚ) : List Rect :=
  if rects.length ≤ 1 then rects
  else
    match sortByX rects with
    | [] => []
    | r :: rest => mergeStep max_gap_px min_y_overlap_ratio r rest

/-- Left-edge order on rectangles (the sort key of
`merge_horizontal_boxes`). -/
abbrev leX (a b : Rect) : Prop := a.x ≤ b.x

/-- Two rectangles separated by a horizontal gap larger than `g`. -/
abbrev gapGT (g : ℤ) (a b : Rect) : Prop := g < b.x - (a.x + a.w)

/-- The clamp used by `paddleocr_det` and the unclip helpers
(`clamp_rect_xywh` / the local `clamp_rect` lambdas): position clamped to
`[0, dim-1]`, size clamped to `[1, dim - position]`. -/
def clamp_rect_xywh (W H : ℤ) (r : Rect) : Rect :=
  let x := max 0 (min r.x (W - 1))
  let y := max 0 (min r.y (H - 1))
  { x := x, y := y,
    w := max 1 (min r.w (W - x)),
    h := max 1 (min r.h (H - y)) }

/-! ## Iterative unclip (`db_unclip_rect_iter`, `db_unclip_rect_iter_aniso`) -/

/-- The loop of `db_unclip_rect_iter`: per iteration grow by
`d = max 1 (round (area / max 1 perimeter * ratio_step))` on all sides,
clamp to the map, stop when the budget `maxGrow` would be exceeded or the
clamped rectangle did not change. -/
def db_unclip_iter_loop (W H maxGrow : ℤ) (ratio_step : ℚ) :
    ℕ → Rect → ℤ → Rect
  | 0, r, _ => r
  | n + 1, r, total_grow =>
    let A : ℚ := (r.w : ℚ) * (r.h : ℚ)
    let P : ℚ := ((r.w + r.h : ℤ) : ℚ) * 2
    let d : ℤ := max 1 (cround ((A / max 1 P) * ratio_step))
    if maxGrow < total_grow + d then r
    else
      let nr := clamp_rect_xywh W H ⟨r.x - d, r.y - d, r.w + 2 * d, r.h + 2 * d⟩
      if nr = r then r
      else db_unclip_iter_loop W H maxGrow ratio_step n nr (total_grow + d)

/-- The growth budget of `db_unclip_rect_iter`:
`MAX_GROW = max(1, round(max(W, H) * max_grow_frac))`. -/
def iterMaxGrow (W H : ℤ) (max_grow_frac : ℚ) : ℤ :=
  max 1 (cround (((max W H : ℤ) : ℚ) * max_grow_frac))

/-- Embedding of `db_unclip_rect_iter`. -/
def db_unclip_rect_iter (r : Rect) (ratio_step : ℚ) (iters : ℤ)
    (W H : ℤ) (max_grow_frac : ℚ) : Rect :=
  if r.w ≤ 0 ∨ r.h ≤ 0 then r
  else db_unclip_iter_loop W H (iterMaxGrow W H max_grow_frac) ratio_step
    iters.toNat r 0

/-- The loop of `db_unclip_rect_iter_aniso`: independent X/Y growth deltas,
each truncated to the remaining per-axis budget; stop when both deltas
are zero. -/
def db_unclip_aniso_loop (W H maxGx maxGy : ℤ) (ratio_x ratio_y : ℚ) :
    ℕ → Rect → ℤ → ℤ → Rect
  | 0, r, _, _ => r
  | n + 1, r, accx, accy =>
    let A : ℚ := (r.w : ℚ) * (r.h : ℚ)
    let P : ℚ := ((r.w + r.h : ℤ) : ℚ) * 2
    let base : ℚ := A / max 1 P
    let dx : ℤ := min (max 1 (cround (base * ratio_x))) (max 0 (maxGx - accx))
    let dy : ℤ := min (max 1 (cround (base * ratio_y))) (max 0 (maxGy - accy))
    if dx = 0 ∧ dy = 0 then r
    else
      db_unclip_aniso_loop W H maxGx maxGy ratio_x ratio_y n
        (clamp_rect_xywh W H ⟨r.x - dx, r.y - dy, r.w + 2 * dx, r.h + 2 * dy⟩)
        (accx + dx) (accy + dy)

/-- The per-axis X growth budget of `db_unclip_rect_iter_aniso`:
`max_gx = max(1, round(W * max_grow_frac_x))`. -/
def anisoMaxGx (W : ℤ) (max_grow_frac_x : ℚ) : ℤ :=
  max 1 (cround ((W : ℚ) * max_grow_frac_x))

/-- The per-axis Y growth budget of `db_unclip_rect_iter_aniso`:
`max_gy = max(1, round(H * max_grow_frac_y))`. -/
def anisoMaxGy (H : ℤ) (max_grow_frac_y : ℚ) : ℤ :=
  max 1 (cround ((H : ℚ) * max_grow_frac_y))

/-- Embedding of `db_unclip_rect_iter_aniso`. -/
def db_unclip_rect_iter_aniso (r : Rect) (ratio_x ratio_y : ℚ) (iters : ℤ)
    (W H : ℤ) (max_grow_frac_x max_grow_frac_y : ℚ) : Rect :=
  if r.w ≤ 0 ∨ r.h ≤ 0 then r
  else
    db_unclip_aniso_loop W H (anisoMaxGx W max_grow_frac_x)
      (anisoMaxGy H max_grow_frac_y) ratio_x ratio_y iters.toNat r 0 0

/-- Rectangle within the W×H map with positive size, as maintained by
`clamp_rect_xywh`. -/
def InBoundsRect (W H : ℤ) (r : Rect) : Prop :=
  0 ≤ r.x ∧ 0 ≤ r.y ∧ 1 ≤ r.w ∧ 1 ≤ r.h ∧ r.x + r.w ≤ W ∧ r.y + r.h ≤ H

instance (W H : ℤ) (r : Rect) : Decidable (InBoundsRect W H r) := by
  unfold InBoundsRect; infer_instance

/-! ## Detections and classifications -/

/-- A normalized box in frame coordinates (`HailoBBox`). -/
structure NBox where
  xmin : ℚ
  ymin : ℚ
  width : ℚ
  height : ℚ
deriving DecidableEq, Repr

/-- A `HailoClassification`: (category, value, confidence). -/
structure Classification where
  category : String
  value : String
  conf : ℚ
deriving DecidableEq, Repr

/-- A `HailoDetection`: normalized box, label, score, attached
classifications. -/
structure Detection where
  bbox : NBox
  label : String
  score : ℚ
  classifications : List Classification
deriving DecidableEq, Repr

/-! ## Crop/region selection (`crop_text_regions`) -/

/-- `clamp01` from `crop_text_regions`. -/
def clamp01 (v : ℚ) : ℚ := max 0 (min 1 v)

/-- The final padding and clamping of one box in `crop_text_regions`. -/
def cropFinishBox (nx nw ny nh pad_x_n pad_y_n : ℚ) : NBox :=
  let x0 := clamp01 (nx - pad_x_n)
  let y0 := clamp01 (ny - pad_y_n)
  let x1 := clamp01 (nx + nw + pad_x_n)
  let y1 := clamp01 (ny + nh + pad_y_n)
  ⟨x0, y0, max 0 (x1 - x0), max 0 (y1 - y0)⟩

/-- The letterbox undo of `crop_text_regions` (identity when
`use_letterbox` is false): returns the adjusted `(nx, ny, nw, nh)`. -/
def letterboxAdjust (img_w img_h : ℚ) (use_letterbox : Bool) (nb : NBox) :
    ℚ × ℚ × ℚ × ℚ :=
  if use_letterbox then
    let img_aspect := img_w / img_h
    let scale := if 1 ≤ img_aspect then 1 / img_aspect else img_aspect
    let pad_x := if 1 ≤ img_aspect then (1 - scale) * (1/2) else 0
    let pad_y := if 1 ≤ img_aspect then 0 else (1 - scale) * (1/2)
    let x0 := clamp01 ((nb.xmin - pad_x) / scale)
    let y0 := clamp01 ((nb.ymin - pad_y) / scale)
    let x1 := clamp01 ((nb.xmin + nb.width - pad_x) / scale)
    let y1 := clamp01 ((nb.ymin + nb.height - pad_y) / scale)
    (x0, y0, max 0 (x1 - x0), max 0 (y1 - y0))
  else (nb.xmin, nb.ymin, nb.width, nb.height)

/-- The per-detection body of the `crop_text_regions` loop for a
`text_region` detection: optional letterbox undo, minimum pixel size
gate (`none` = skipped), minimum target height re-centering, fixed pixel
padding, all clamped to [0,1]. -/
def crop_text_regions_one (img_w img_h : ℚ) (use_letterbox : Bool)
    (nb : NBox) : Option NBox :=
  let lb := letterboxAdjust img_w img_h use_letterbox nb
  let nx := lb.1
  let ny := lb.2.1
  let nw := lb.2.2.1
  let nh := lb.2.2.2
  let w_px := nw * img_w
  let h_px := nh * img_h
  if w_px < 4 ∨ h_px < 2 then none
  else
    let adj :=
      if h_px < 12 then
        let center_y := ny + nh * (1/2)
        let new_h_n := 12 / img_h
        let new_y := center_y - new_h_n * (1/2)
        let ny2 := clamp01 new_y
        (ny2, min (1 - ny2) new_h_n)
      else (ny, nh)
    some (cropFinishBox nx nw adj.1 adj.2 (4 / img_w) (2 / img_h))

/-! ## Detection stage: scoring, filtering and fallback (`paddleocr_det`) -/

/-- The flattened ROI box mapping of `paddleocr_det`: map-pixel to
frame-normalized scale factors `sx, sy` and the ROI box origin. -/
structure FrameMap where
  sx : ℚ
  sy : ℚ
  rx : ℚ
  ry : ℚ
deriving DecidableEq, Repr

/-- Build a `text_region` detection from a map rectangle, as in
`paddleocr_det` step 5. -/
def rect_to_detection (fm : FrameMap) (sc : ℚ) (r : Rect) : Detection :=
  { bbox := ⟨(r.x : ℚ) * fm.sx + fm.rx, (r.y : ℚ) * fm.sy + fm.ry,
             (r.w : ℚ) * fm.sx, (r.h : ℚ) * fm.sy⟩,
    label := "text_region",
    score := sc,
    classifications := [] }

/-- The step-5 keep test of `paddleocr_det`: minimum pixel height,
minimum area, aspect-ratio window, and the score threshold (relaxed for
very elongated boxes). -/
def detKeep (H median_h : ℤ) (det_box_thresh : ℚ) (score : Rect → ℚ)
    (r : Rect) : Prop :=
  let minHpx := max 3 (cround ((H : ℚ) * (10/1000)))
  let minArea : ℚ := max 80 (((median_h * median_h : ℤ) : ℚ) * (4/10))
  let ar : ℚ := (r.w : ℚ) / ((max 1 r.h : ℤ) : ℚ)
  let score_min : ℚ := if 16 < ar then max (45/100) (det_box_thresh - 15/100)
                       else det_box_thresh
  minHpx ≤ r.h ∧ minArea ≤ (r.w : ℚ) * (r.h : ℚ) ∧
  (6/10 : ℚ) ≤ ar ∧ ar ≤ 80 ∧ score_min ≤ score r

instance (H median_h : ℤ) (det_box_thresh : ℚ) (score : Rect → ℚ) (r : Rect) :
    Decidable (detKeep H median_h det_box_thresh score r) := by
  unfold detKeep; infer_instance

/-- The step-5 filter loop of `paddleocr_det`: keep passing rectangles,
breaking once `det_max_candidates` detections have been pushed
(`n` is the current output count). -/
def detPass (H median_h : ℤ) (det_box_thresh : ℚ) (det_max_candidates : ℤ)
    (score : Rect → ℚ) (fm : FrameMap) : List Rect → ℤ → List Detection
  | [], _ => []
  | r :: rest, n =>
    if detKeep H median_h det_box_thresh score r then
      if det_max_candidates ≤ n + 1 then [rect_to_detection fm (score r) r]
      else rect_to_detection fm (score r) r ::
        detPass H median_h det_box_thresh det_max_candidates score fm rest (n + 1)
    else detPass H median_h det_box_thresh det_max_candidates score fm rest n

/-- Descending-width order on rectangles (the fallback sort key). -/
abbrev geW (a b : Rect) : Prop := b.w ≤ a.w

/-- Insert into a list sorted by descending width (stable), modelling
`std::sort(..., [](a,b){ return rects[a].width > rects[b].width; })`. -/
def insertByW (r : Rect) : List Rect → List Rect
  | [] => [r]
  | s :: rest => if s.w < r.w then r :: s :: rest else s :: insertByW r rest

/-- Stable sort by descending width. -/
def sortByW : List Rect → List Rect
  | [] => []
  | r :: rest => insertByW r (sortByW rest)

/-- The step-5.5 fallback detection: tiny pad of 10% of the height on
every side, clamp to the map, map to frame coordinates and rescore. -/
def fallback_det (W H : ℤ) (score : Rect → ℚ) (fm : FrameMap) (r : Rect) :
    Detection :=
  let gx := max 1 (cround ((r.h : ℚ) * (1/10)))
  let gy := max 1 (cround ((r.h : ℚ) * (1/10)))
  let rr := clamp_rect_xywh W H ⟨r.x - gx, r.y - gy, r.w + 2 * gx, r.h + 2 * gy⟩
  rect_to_detection fm (score rr) rr

/-- Steps 5 and 5.5 of `paddleocr_det`: run the filter; if it kept
nothing while candidate rectangles existed, keep the two widest
rectangles instead. -/
def paddleocr_det_select (W H median_h : ℤ) (det_box_thresh : ℚ)
    (det_max_candidates : ℤ) (score : Rect → ℚ) (fm : FrameMap)
    (rects : List Rect) : List Detection :=
  let outs := detPass H median_h det_box_thresh det_max_candidates score fm rects 0
  if outs = [] ∧ rects ≠ [] then
    ((sortByW rects).take 2).map (fallback_det W H score fm)
  else outs

/-! ## Tensor lookup (`get_tensor_by_name_or_fallback`, `paddleocr_det` entry) -/

/-- An output tensor as seen by the lookup: a name plus an opaque
identity. -/
structure Tensor where
  name : String
  id : ℕ
deriving DecidableEq, Repr

/-- Embedding of `get_tensor_by_name_or_fallback`: exact name match,
else the first tensor, else a raised error when the ROI holds no
tensors. -/
def get_tensor_by_name_or_fallback (tensors : List Tensor) (desired : String) :
    Except String Tensor :=
  match tensors.find? (fun t => t.name = desired) with
  | some t => .ok t
  | none =>
    match tensors with
    | [] => .error "ROI has no tensors"
    | t :: _ => .ok t

/-- The entry of `paddleocr_det`: the `has_tensors` guard returns
(no-op, modelled `ok none`) before any lookup; otherwise the stage
proceeds with the looked-up tensor (`ok (some t)`), and an `error`
models a raise. -/
def paddleocr_det_fetch (tensors : List Tensor) (desired : String) :
    Except String (Option Tensor) :=
  if tensors = [] then .ok none
  else (get_tensor_by_name_or_fallback tensors desired).map some

/-! ## CTC greedy decode and attachment (`paddleocr_recognize`) -/

/-- The string appended at one timestep of the CTC loop: empty when the
blank/repeat gate rejects the index, the charset symbol when the index
is in range, and the literal `"?"` otherwise. -/
def ctcPiece (charset : List String) (blank prev idx : ℤ) : String :=
  if idx ≠ blank ∧ idx ≠ prev then
    if 0 ≤ idx ∧ idx < (charset.length : ℤ) then charset.getD idx.toNat "?"
    else "?"
  else ""

/-- One appended string per timestep, threading the previous argmax
index (initially `-1` at the top level). -/
def ctcPiecesFrom (charset : List String) (blank : ℤ) :
    ℤ → List ℤ → List String
  | _, [] => []
  | prev, idx :: rest =>
    ctcPiece charset blank prev idx :: ctcPiecesFrom charset blank idx rest

/-- The per-timestep appended strings of the CTC greedy decode. -/
def ctcPieces (charset : List String) (blank : ℤ) (idxs : List ℤ) :
    List String :=
  ctcPiecesFrom charset blank (-1) idxs

/-- The decoded text: concatenation of the per-timestep pieces. -/
def ctcText (charset : List String) (blank : ℤ) (idxs : List ℤ) : String :=
  String.join (ctcPieces charset blank idxs)

/-- Confidence accumulator of the CTC loop: sum and count of the max
probabilities of the emitted timesteps. -/
def ctcConfAux (blank : ℤ) : ℤ → List (ℤ × ℚ) → ℚ × ℤ
  | _, [] => (0, 0)
  | prev, (idx, pmax) :: rest =>
    let r := ctcConfAux blank idx rest
    if idx ≠ blank ∧ idx ≠ prev then (r.1 + pmax, r.2 + 1) else r

/-- The reported confidence: mean of the emitted max probabilities, 0
when nothing was emitted. -/
def ctcConf (blank : ℤ) (steps : List (ℤ × ℚ)) : ℚ :=
  let r := ctcConfAux blank (-1) steps
  if 0 < r.2 then r.1 / ((r.2 : ℤ) : ℚ) else 0

/-- The attachment tail of `paddleocr_recognize`: when the text is
non-empty and differs from the single-space string, append a
`license_plate` classification to the first detection; otherwise leave
the detections unchanged. -/
def recognize_attach (text : String) (conf : ℚ) (dets : List Detection) :
    List Detection :=
  if text ≠ "" ∧ text ≠ " " then
    match dets with
    | [] => []
    | d :: rest =>
      { d with classifications :=
          d.classifications ++ [⟨"license_plate", text, conf⟩] } :: rest
  else dets

/-- The decode-and-attach pipeline of `paddleocr_recognize`, over the
per-timestep (argmax index, max probability) pairs. -/
def paddleocr_recognize_model (charset : List String) (blank : ℤ)
    (steps : List (ℤ × ℚ)) (dets : List Detection) : List Detection :=
  recognize_attach (ctcText charset blank (steps.map Prod.fst))
    (ctcConf blank steps) dets

/-- Space character test without a character literal. -/
def isSpaceChar (c : Char) : Bool := c.toNat = 32

/-! ## ROI object container (`crop_text_regions_filter`) -/

/-- An object attached to an ROI: a detection or some other typed
object (opaque). -/
inductive RoiObj where
  | det : Detection → RoiObj
  | other : ℕ → RoiObj
deriving DecidableEq, Repr

/-- Detection test on an ROI object. -/
def RoiObj.isDet : RoiObj → Bool
  | .det _ => true
  | .other _ => false

/-- The detection carried by an ROI object, if any. -/
def RoiObj.detOf : RoiObj → Option Detection
  | .det d => some d
  | .other _ => none

/-- `hailo_common::get_hailo_detections`: the detections of the ROI, in
stored order. -/
def get_hailo_detections (objs : List RoiObj) : List Detection :=
  objs.filterMap RoiObj.detOf

/-- Embedding of `crop_text_regions_filter`: collect every detection
(the label test is commented out in the source), remove all
detection-typed objects, then re-add the collected detections. -/
def crop_text_regions_filter (objs : List RoiObj) : List RoiObj :=
  let text_detections := get_hailo_detections objs
  (objs.filter fun o => !o.isDet) ++ text_detections.map RoiObj.det

/-!
# Theorems
-/

/-! ## C1: charset loader fallback -/

/-- Counterexample to claim C1 as stated: the built-in default table has
96 symbols, not 97, and a non-empty charset path naming an absent file
raises an error instead of falling back to the default table. -/
theorem charset_default_size_counterexample :
    load_default_charset.length = 96 ∧
    load_charset_from_file "chars.txt" none =
      .error "Failed to open charset file: chars.txt" :=
  ⟨rfl, rfl⟩

/-- Claim C1 (amended): the loader falls back to the built-in default
table when the configured path is empty or the charset file contains no
lines; a non-empty path naming an absent file raises.  The default table
has exactly 96 symbols with the blank token at index 0. -/
theorem charset_loader_fallback (path : String) (file : Option (List String)) :
    load_charset_from_file "" file = .ok load_default_charset ∧
    load_charset_from_file path (some []) = .ok load_default_charset ∧
    (path ≠ "" →
      load_charset_from_file path none =
        .error ("Failed to open charset file: " ++ path)) ∧
    load_default_charset.length = 96 ∧
    load_default_charset.getD 0 "" = "blank" := by
  refine ⟨rfl, ?_, ?_, rfl, rfl⟩
  · unfold load_charset_from_file
    by_cases h : path = "" <;> simp [h]
  · intro h
    unfold load_charset_from_file
    simp [h]

/-- Witness for `charset_loader_fallback` at a concrete non-empty path. -/
theorem charset_loader_fallback_witness :
    load_charset_from_file "plate_chars.txt" none =
      .error "Failed to open charset file: plate_chars.txt" :=
  (charset_loader_fallback "plate_chars.txt" none).2.2.1 (by decide)

/-! ## C2: adaptive binarization threshold bounds -/

/-- Counterexample to claim C2 as stated: with a configured
`det_bin_thresh` of 9/10 and a mid-range foreground ratio of 5/100
(neither sparse nor dense), the chosen threshold is 9/10, outside
[0.15, 0.75]. -/
theorem bin_thr_counterexample :
    ¬ ((15/100 : ℚ) ≤ chosen_bin_thr (9/10) (5/100) ∧
       chosen_bin_thr (9/10) (5/100) ≤ 75/100) := by
  unfold chosen_bin_thr
  norm_num

/-- Claim C2 (amended): whenever the configured `det_bin_thresh` itself
lies in [0.15, 0.75], the adaptively chosen binarization threshold lies
in [0.15, 0.75] for every foreground ratio. -/
theorem chosen_bin_thr_bounds (t fg : ℚ) (h1 : (15/100 : ℚ) ≤ t)
    (h2 : t ≤ 75/100) :
    (15/100 : ℚ) ≤ chosen_bin_thr t fg ∧ chosen_bin_thr t fg ≤ 75/100 := by
  unfold chosen_bin_thr
  split_ifs with hs hd
  · exact ⟨le_max_left _ _, max_le (by norm_num) (by linarith)⟩
  · exact ⟨le_min (by norm_num) (by linarith), min_le_left _ _⟩
  · exact ⟨h1, h2⟩

/-- Witness for `chosen_bin_thr_bounds` at the default threshold 0.3 and
a sparse map. -/
theorem chosen_bin_thr_bounds_witness :
    (15/100 : ℚ) ≤ chosen_bin_thr (3/10) (1/1000) ∧
    chosen_bin_thr (3/10) (1/1000) ≤ 75/100 :=
  chosen_bin_thr_bounds (3/10) (1/1000) (by norm_num) (by norm_num)

/-! ## C4: tensor lookup and the no-tensor guard -/

/-- Counterexample to claim C4 as stated: the only way the fallback
lookup finds no tensor is an ROI without tensors, and there
`paddleocr_det` is a no-op (no raise) because of its `has_tensors`
guard — it does not raise as the claim asserts. -/
theorem det_no_tensor_noop_counterexample :
    get_tensor_by_name_or_fallback [] "db_output" =
      .error "ROI has no tensors" ∧
    paddleocr_det_fetch [] "db_output" = .ok none :=
  ⟨rfl, rfl⟩

/-- Claim C4 (amended): on a tensor-less ROI `paddleocr_det` is a no-op
and never raises; on any ROI with tensors the lookup always yields a
tensor; the helper `get_tensor_by_name_or_fallback` fails exactly when
the tensor list is empty. -/
theorem paddleocr_det_fetch_spec (tensors : List Tensor) (desired : String) :
    (tensors = [] → paddleocr_det_fetch tensors desired = .ok none) ∧
    (tensors ≠ [] → ∃ t : Tensor,
      paddleocr_det_fetch tensors desired = .ok (some t)) ∧
    ((get_tensor_by_name_or_fallback tensors desired).isOk = false ↔
      tensors = []) := by
  refine ⟨?_, ?_, ?_⟩
  · intro h; subst h; rfl
  · intro h
    unfold paddleocr_det_fetch
    rw [if_neg h]
    unfold get_tensor_by_name_or_fallback
    cases hf : tensors.find? (fun t => t.name = desired) with
    | some t => exact ⟨t, rfl⟩
    | none =>
      cases tensors with
      | nil => exact absurd rfl h
      | cons a rest => exact ⟨a, rfl⟩
  · cases hf : tensors.find? (fun t => t.name = desired) with
    | some t =>
      unfold get_tensor_by_name_or_fallback
      rw [hf]
      constructor
      · intro hcon; simp [Except.isOk, Except.toBool] at hcon
      · intro hnil
        subst hnil
        simp at hf
    | none =>
      unfold get_tensor_by_name_or_fallback
      rw [hf]
      cases tensors with
      | nil => simp [Except.isOk, Except.toBool]
      | cons a rest => simp [Except.isOk, Except.toBool]

/-- Witness for `paddleocr_det_fetch_spec` on an empty tensor list. -/
theorem paddleocr_det_fetch_spec_witness :
    paddleocr_det_fetch [] "sigmoid_output" = .ok none :=
  (paddleocr_det_fetch_spec [] "sigmoid_output").1 rfl

/-! ## C6: crop/region selection box invariant -/

/-- `clamp01` lower bound. -/
theorem clamp01_nonneg (v : ℚ) : 0 ≤ clamp01 v := le_max_left _ _

/-- `clamp01` upper bound. -/
theorem clamp01_le_one (v : ℚ) : clamp01 v ≤ 1 :=
  max_le (by norm_num) (min_le_left _ _)

/-- The final pad-and-clamp of `crop_text_regions` always produces a box
within the normalized frame. -/
theorem cropFinishBox_inv (nx nw ny nh px py : ℚ) :
    0 ≤ (cropFinishBox nx nw ny nh px py).xmin ∧
    0 ≤ (cropFinishBox nx nw ny nh px py).ymin ∧
    (cropFinishBox nx nw ny nh px py).xmin +
      (cropFinishBox nx nw ny nh px py).width ≤ 1 ∧
    (cropFinishBox nx nw ny nh px py).ymin +
      (cropFinishBox nx nw ny nh px py).height ≤ 1 := by
  unfold cropFinishBox
  dsimp only
  refine ⟨clamp01_nonneg _, clamp01_nonneg _, ?_, ?_⟩
  · rcases le_total (clamp01 (nx + nw + px) - clamp01 (nx - px)) 0 with h | h
    · rw [max_eq_left h]
      simpa using clamp01_le_one (nx - px)
    · rw [max_eq_right h]
      have := clamp01_le_one (nx + nw + px)
      linarith
  · rcases le_total (clamp01 (ny + nh + py) - clamp01 (ny - py)) 0 with h | h
    · rw [max_eq_left h]
      simpa using clamp01_le_one (ny - py)
    · rw [max_eq_right h]
      have := clamp01_le_one (ny + nh + py)
      linarith

/-- Claim C6: every detection box written by the `crop_text_regions`
loop body satisfies the normalized-frame invariant, for every image
size, letterbox flag and initial box. -/
theorem crop_text_regions_box_invariant (img_w img_h : ℚ)
    (use_letterbox : Bool) (nb out : NBox)
    (h : crop_text_regions_one img_w img_h use_letterbox nb = some out) :
    0 ≤ out.xmin ∧ 0 ≤ out.ymin ∧
    out.xmin + out.width ≤ 1 ∧ out.ymin + out.height ≤ 1 := by
  unfold crop_text_regions_one at h
  dsimp only at h
  split at h
  · exact absurd h (by simp)
  · injection h with h
    rw [← h]
    exact cropFinishBox_inv _ _ _ _ _ _

/-- Witness for `crop_text_regions_box_invariant` on a 100×100 image. -/
theorem crop_text_regions_box_invariant_witness :
    0 ≤ (NBox.mk (3/50) (2/25) (29/50) (27/50)).xmin ∧
    0 ≤ (NBox.mk (3/50) (2/25) (29/50) (27/50)).ymin ∧
    (NBox.mk (3/50) (2/25) (29/50) (27/50)).xmin +
      (NBox.mk (3/50) (2/25) (29/50) (27/50)).width ≤ 1 ∧
    (NBox.mk (3/50) (2/25) (29/50) (27/50)).ymin +
      (NBox.mk (3/50) (2/25) (29/50) (27/50)).height ≤ 1 :=
  crop_text_regions_box_invariant 100 100 false ⟨1/10, 1/10, 1/2, 1/2⟩ _
    (by norm_num [crop_text_regions_one, letterboxAdjust, cropFinishBox,
      clamp01, min_def, max_def])

/-! ## C5: merge_horizontal_boxes and idempotence -/

/-- The vertical overlap ratio is never negative. -/
theorem yOverlapRatio_nonneg (a b : Rect) : 0 ≤ yOverlapRatio a b := by
  unfold yOverlapRatio
  apply div_nonneg
  · exact_mod_cast le_max_left 0 _
  · have h1 : (1 : ℤ) ≤ max 1 (min a.h b.h) := le_max_left _ _
    exact_mod_cast le_trans zero_le_one h1

/-- `insertByX` permutes its arguments. -/
theorem insertByX_perm (r : Rect) (l : List Rect) :
    List.Perm (insertByX r l) (r :: l) := by
  induction l with
  | nil => exact List.Perm.refl _
  | cons s rest ih =>
    unfold insertByX
    split_ifs with h
    · exact List.Perm.refl _
    · exact (List.Perm.cons s ih).trans (List.Perm.swap r s rest)

/-- `insertByX` preserves sortedness by left edge. -/
theorem insertByX_pairwise (r : Rect) (l : List Rect)
    (h : List.Pairwise leX l) : List.Pairwise leX (insertByX r l) := by
  induction l with
  | nil => simp [insertByX]
  | cons s rest ih =>
    unfold insertByX
    rcases List.pairwise_cons.mp h with ⟨hs, hrest⟩
    split_ifs with hx
    · refine List.pairwise_cons.mpr ⟨?_, h⟩
      intro b hb
      rcases List.mem_cons.mp hb with rfl | hb
      · exact hx
      · exact le_trans hx (hs _ hb)
    · refine List.pairwise_cons.mpr ⟨?_, ih hrest⟩
      intro b hb
      rcases List.mem_cons.mp ((insertByX_perm r rest).mem_iff.mp hb) with rfl | hb
      · exact le_of_not_le hx
      · exact hs _ hb

/-- `sortByX` sorts by left edge. -/
theorem sortByX_pairwise (l : List Rect) : List.Pairwise leX (sortByX l) := by
  induction l with
  | nil => exact List.Pairwise.nil
  | cons r rest ih => exact insertByX_pairwise r _ ih

/-- `sortByX` permutes its input. -/
theorem sortByX_perm (l : List Rect) : List.Perm (sortByX l) l := by
  induction l with
  | nil => exact List.Perm.refl _
  | cons r rest ih =>
    exact (insertByX_perm r (sortByX rest)).trans (List.Perm.cons r ih)

/-- Sorting an already sorted list is the identity. -/
theorem sortByX_eq_self (l : List Rect) (h : List.Pairwise leX l) :
    sortByX l = l := by
  induction l with
  | nil => rfl
  | cons a rest ih =>
    rcases List.pairwise_cons.mp h with ⟨ha, hrest⟩
    unfold sortByX
    rw [ih hrest]
    cases rest with
    | nil => rfl
    | cons b rest2 =>
      unfold insertByX
      rw [if_pos (ha b (by simp))]

/-- The union of two rectangles keeps its left edge between the two. -/
theorem rectUnion_x_le (a b : Rect) (h : a.x ≤ b.x) :
    a.x ≤ (rectUnion a b).x ∧ (rectUnion a b).x ≤ b.x := by
  unfold rectUnion
  split_ifs with h1 h2
  · exact ⟨h, le_refl _⟩
  · exact ⟨le_refl _, h⟩
  · dsimp
    rw [min_eq_left h]
    exact ⟨le_refl _, h⟩

/-- On a sorted input, the greedy merge loop yields a non-empty sorted
output whose consecutive members are separated by gaps larger than
`g`, provided the overlap threshold is non-positive. -/
theorem mergeStep_spec (g : ℤ) (ρ : ℚ) (hρ : ρ ≤ 0) :
    ∀ (l : List Rect) (run : Rect), List.Pairwise leX (run :: l) →
    ∃ b rest2, mergeStep g ρ run l = b :: rest2 ∧ run.x ≤ b.x ∧
      List.Pairwise leX (b :: rest2) ∧
      List.Chain' (gapGT g) (b :: rest2) := by
  intro l
  induction l with
  | nil =>
    intro run hp
    exact ⟨run, [], rfl, le_refl _, hp, List.chain'_singleton _⟩
  | cons next rest ih =>
    intro run hp
    rcases List.pairwise_cons.mp hp with ⟨hr, hp2⟩
    rcases List.pairwise_cons.mp hp2 with ⟨hn, hp3⟩
    have hrx : run.x ≤ next.x := hr next (by simp)
    unfold mergeStep
    split_ifs with hcond
    · have hu := rectUnion_x_le run next hrx
      have hpu : List.Pairwise leX (rectUnion run next :: rest) := by
        refine List.pairwise_cons.mpr ⟨?_, hp3⟩
        intro b hb
        exact le_trans hu.2 (hn b hb)
      rcases ih (rectUnion run next) hpu with ⟨b, rest2, heq, hbx, hpw, hch⟩
      exact ⟨b, rest2, heq, le_trans hu.1 hbx, hpw, hch⟩
    · rcases ih next hp2 with ⟨b, rest2, heq, hbx, hpw, hch⟩
      refine ⟨run, mergeStep g ρ next rest, rfl, le_refl _, ?_, ?_⟩
      · rw [heq]
        refine List.pairwise_cons.mpr ⟨?_, hpw⟩
        intro c hc
        rcases List.mem_cons.mp hc with rfl | hc
        · exact le_trans hrx hbx
        · exact le_trans (le_trans hrx hbx) ((List.pairwise_cons.mp hpw).1 c hc)
      · rw [heq]
        refine List.chain'_cons.mpr ⟨?_, hch⟩
        have hyov : ρ ≤ yOverlapRatio run next :=
          le_trans hρ (yOverlapRatio_nonneg run next)
        have hgap : ¬ (next.x - (run.x + run.w) ≤ g) := fun hle => hcond ⟨hle, hyov⟩
        show g < b.x - (run.x + run.w)
        omega

/-- A gap-separated run list is a fixed point of the merge loop. -/
theorem mergeStep_fixed (g : ℤ) (ρ : ℚ) :
    ∀ (l : List Rect) (run : Rect), List.Chain' (gapGT g) (run :: l) →
    mergeStep g ρ run l = run :: l := by
  intro l
  induction l with
  | nil => intro run _; rfl
  | cons next rest ih =>
    intro run hch
    rcases List.chain'_cons.mp hch with ⟨hg, hch2⟩
    unfold mergeStep
    rw [if_neg]
    · rw [ih next hch2]
    · intro hc
      have h1 := hc.1
      have h2 : g < next.x - (run.x + run.w) := hg
      omega

/-- A sorted, gap-separated rectangle list is a fixed point of
`merge_horizontal_boxes`. -/
theorem merge_fixed_of (l : List Rect) (g : ℤ) (ρ : ℚ)
    (hp : List.Pairwise leX l) (hc : List.Chain' (gapGT g) l) :
    merge_horizontal_boxes l g ρ = l := by
  unfold merge_horizontal_boxes
  split_ifs with hlen
  · rfl
  · rw [sortByX_eq_self l hp]
    cases l with
    | nil => rfl
    | cons a rest => exact mergeStep_fixed g ρ rest a hc

/-- With a non-positive overlap threshold, the output of
`merge_horizontal_boxes` is sorted and gap-separated. -/
theorem merge_nice (rs : List Rect) (g : ℤ) (ρ : ℚ) (hρ : ρ ≤ 0) :
    List.Pairwise leX (merge_horizontal_boxes rs g ρ) ∧
    List.Chain' (gapGT g) (merge_horizontal_boxes rs g ρ) := by
  unfold merge_horizontal_boxes
  split_ifs with hlen
  · cases rs with
    | nil => simp
    | cons a rest =>
      cases rest with
      | nil => simp
      | cons b rest2 => simp at hlen
  · cases hs : sortByX rs with
    | nil => simp
    | cons r rest =>
      have hp : List.Pairwise leX (r :: rest) := hs ▸ sortByX_pairwise rs
      rcases mergeStep_spec g ρ hρ rest r hp with ⟨b, rest2, heq, _, hpw, hch⟩
      dsimp only
      rw [heq]
      exact ⟨hpw, hch⟩

/-- Claim C5 (amended): `merge_horizontal_boxes` is idempotent whenever
`min_y_overlap_ratio ≤ 0` (gap-only merging); for positive overlap
thresholds a second application can merge further (see the
counterexample). -/
theorem merge_horizontal_boxes_idem_nonpos (rs : List Rect) (g : ℤ) (ρ : ℚ)
    (hρ : ρ ≤ 0) :
    merge_horizontal_boxes (merge_horizontal_boxes rs g ρ) g ρ =
      merge_horizontal_boxes rs g ρ := by
  rcases merge_nice rs g ρ hρ with ⟨hp, hc⟩
  exact merge_fixed_of _ g ρ hp hc

/-- Witness for `merge_horizontal_boxes_idem_nonpos` on two separated
squares. -/
theorem merge_horizontal_boxes_idem_nonpos_witness :
    merge_horizontal_boxes
        (merge_horizontal_boxes [⟨0, 0, 4, 4⟩, ⟨10, 0, 4, 4⟩] 3 0) 3 0 =
      merge_horizontal_boxes [⟨0, 0, 4, 4⟩, ⟨10, 0, 4, 4⟩] 3 0 :=
  merge_horizontal_boxes_idem_nonpos [⟨0, 0, 4, 4⟩, ⟨10, 0, 4, 4⟩] 3 0
    (le_refl 0)

/-- Counterexample to claim C5 as stated: with `max_gap = 5` and
`min_y_overlap_ratio = 1/2`, a closed run grows vertically through a
later union and the second pass merges it with its left neighbour, so
the rectangle sets of the first and second pass differ. -/
theorem merge_not_idempotent_counterexample :
    merge_horizontal_boxes
        (merge_horizontal_boxes
          [⟨0, 0, 10, 10⟩, ⟨11, 20, 2, 2⟩, ⟨12, 5, 2, 17⟩] 5 (1/2)) 5 (1/2) ≠
      merge_horizontal_boxes
        [⟨0, 0, 10, 10⟩, ⟨11, 20, 2, 2⟩, ⟨12, 5, 2, 17⟩] 5 (1/2) := by
  have h1 : merge_horizontal_boxes
      [⟨0, 0, 10, 10⟩, ⟨11, 20, 2, 2⟩, ⟨12, 5, 2, 17⟩] 5 (1/2) =
      [⟨0, 0, 10, 10⟩, ⟨11, 5, 3, 17⟩] := by
    norm_num [merge_horizontal_boxes, sortByX, insertByX, mergeStep, rectUnion,
      yOverlapRatio, min_def, max_def]
  have h2 : merge_horizontal_boxes [⟨0, 0, 10, 10⟩, ⟨11, 5, 3, 17⟩] 5 (1/2) =
      [⟨0, 0, 14, 22⟩] := by
    norm_num [merge_horizontal_boxes, sortByX, insertByX, mergeStep, rectUnion,
      yOverlapRatio, min_def, max_def]
  rw [h1, h2]
  decide

/-! ## C8: out-of-range class indices decode to "?" -/

/-- The CTC loop appends exactly one (possibly empty) piece per
timestep. -/
theorem ctcPiecesFrom_length (charset : List String) (blank : ℤ)
    (idxs : List ℤ) : ∀ prev : ℤ,
    (ctcPiecesFrom charset blank prev idxs).length = idxs.length := by
  induction idxs with
  | nil => intro prev; rfl
  | cons a rest ih => intro prev; simp [ctcPiecesFrom, ih]

/-- An emitted timestep whose argmax index is at least the charset size
contributes the literal `"?"`, for any starting previous index. -/
theorem ctcPiecesFrom_oob (charset : List String) (blank : ℤ)
    (idxs : List ℤ) : ∀ (prev : ℤ) (t : ℕ) (i : ℤ),
    idxs[t]? = some i →
    (charset.length : ℤ) ≤ i →
    i ≠ blank →
    (t = 0 → i ≠ prev) →
    (∀ s : ℕ, t = s + 1 → idxs[s]? ≠ some i) →
    (ctcPiecesFrom charset blank prev idxs)[t]? = some "?" := by
  induction idxs with
  | nil => intro prev t i h; simp at h
  | cons a rest ih =>
    intro prev t i hidx hK hb h0 hs
    cases t with
    | zero =>
      simp only [List.getElem?_cons_zero, Option.some.injEq] at hidx
      subst hidx
      simp only [ctcPiecesFrom, List.getElem?_cons_zero, Option.some.injEq]
      unfold ctcPiece
      rw [if_pos ⟨hb, h0 rfl⟩, if_neg]
      intro hcon
      omega
    | succ s =>
      simp only [List.getElem?_cons_succ] at hidx
      simp only [ctcPiecesFrom, List.getElem?_cons_succ]
      apply ih a s i hidx hK hb
      · intro hs0
        subst hs0
        have h00 := hs 0 rfl
        simp only [List.getElem?_cons_zero] at h00
        intro hai
        exact h00 (by rw [hai])
      · intro s2 hs2
        subst hs2
        have hss := hs (s2 + 1) rfl
        simpa using hss

/-- Claim C8: a timestep whose argmax class index is `≥ K` (the charset
size) and which passes the CTC blank/repeat gate appends the literal
`"?"`; the decode is total — it produces exactly one piece per
timestep and never faults. -/
theorem ctc_out_of_range_question (charset : List String) (blank : ℤ)
    (idxs : List ℤ) (t : ℕ) (i : ℤ)
    (hidx : idxs[t]? = some i)
    (hK : (charset.length : ℤ) ≤ i)
    (hblank : i ≠ blank)
    (hdiff : t = 0 ∨ idxs[t - 1]? ≠ some i) :
    (ctcPieces charset blank idxs).length = idxs.length ∧
    (ctcPieces charset blank idxs)[t]? = some "?" := by
  constructor
  · exact ctcPiecesFrom_length charset blank idxs (-1)
  · apply ctcPiecesFrom_oob charset blank idxs (-1) t i hidx hK hblank
    · intro _ hcon
      omega
    · intro s hts
      rcases hdiff with h0 | hne
      · omega
      · have hts1 : t - 1 = s := by omega
        rw [← hts1]
        exact hne

/-- Witness for `ctc_out_of_range_question`: index 5 against a
single-symbol charset decodes to `"?"`. -/
theorem ctc_out_of_range_question_witness :
    (ctcPieces ["blank"] 0 [5]).length = ([5] : List ℤ).length ∧
    (ctcPieces ["blank"] 0 [5])[0]? = some "?" :=
  ctc_out_of_range_question ["blank"] 0 [5] 0 5 rfl (by decide) (by decide)
    (Or.inl rfl)

/-! ## C3: attachment condition of the recognition stage -/

/-- Counterexample to claim C3 as stated: the decoded text of the
argmax sequence [95, 0, 95] over the default charset is two spaces —
pure whitespace — yet the stage attaches a `license_plate`
classification carrying it, because the code only rejects the exact
single-space string. -/
theorem recognize_attach_whitespace_counterexample :
    ctcText load_default_charset 0 [95, 0, 95] = "  " ∧
    (ctcText load_default_charset 0 [95, 0, 95]).toList.all isSpaceChar = true ∧
    (paddleocr_recognize_model load_default_charset 0 [(95, 1), (0, 1), (95, 1)]
        [⟨⟨0, 0, 1, 1⟩, "text_region", 1, []⟩]).map
      (fun d => (d.classifications.map Classification.category,
                 d.classifications.map Classification.value)) =
      [(["license_plate"], ["  "])] := by
  refine ⟨by decide, by decide, by decide⟩

/-- Claim C3 (amended): the recognition stage attaches a
`license_plate` classification (value = decoded text, mean per-emission
confidence) to the first detection exactly when the decoded text is
non-empty, differs from the single-space string, and a detection
exists; otherwise the detections are unchanged.  (Pure-whitespace texts
longer than one space are attached.) -/
theorem paddleocr_recognize_attach_spec (charset : List String) (blank : ℤ)
    (steps : List (ℤ × ℚ)) (d : Detection) (rest : List Detection) :
    paddleocr_recognize_model charset blank steps [] = [] ∧
    ((ctcText charset blank (steps.map Prod.fst) ≠ "" ∧
      ctcText charset blank (steps.map Prod.fst) ≠ " ") →
      paddleocr_recognize_model charset blank steps (d :: rest) =
        { d with classifications := d.classifications ++
            [⟨"license_plate", ctcText charset blank (steps.map Prod.fst),
              ctcConf blank steps⟩] } :: rest) ∧
    (¬ (ctcText charset blank (steps.map Prod.fst) ≠ "" ∧
        ctcText charset blank (steps.map Prod.fst) ≠ " ") →
      paddleocr_recognize_model charset blank steps (d :: rest) = d :: rest) := by
  unfold paddleocr_recognize_model recognize_attach
  refine ⟨?_, ?_, ?_⟩
  · split <;> rfl
  · intro h; rw [if_pos h]
  · intro h; rw [if_neg h]

/-- Witness for `paddleocr_recognize_attach_spec`: a one-step decode of
the symbol `A` attaches a classification to the only detection. -/
theorem paddleocr_recognize_attach_spec_witness :
    paddleocr_recognize_model ["blank", "A"] 0 [(1, 1)]
        [⟨⟨0, 0, 1, 1⟩, "text_region", 1, []⟩] =
      [⟨⟨0, 0, 1, 1⟩, "text_region", 1,
        [⟨"license_plate", "A", ctcConf 0 [(1, 1)]⟩]⟩] :=
  (paddleocr_recognize_attach_spec ["blank", "A"] 0 [(1, 1)]
      ⟨⟨0, 0, 1, 1⟩, "text_region", 1, []⟩ []).2.1 (by decide)

/-! ## C7: the two-widest fallback of the detection stage -/

/-- `insertByW` permutes its arguments. -/
theorem insertByW_perm (r : Rect) (l : List Rect) :
    List.Perm (insertByW r l) (r :: l) := by
  induction l with
  | nil => exact List.Perm.refl _
  | cons s rest ih =>
    unfold insertByW
    split_ifs with h
    · exact List.Perm.refl _
    · exact (List.Perm.cons s ih).trans (List.Perm.swap r s rest)

/-- `insertByW` preserves descending-width sortedness. -/
theorem insertByW_pairwise (r : Rect) (l : List Rect)
    (h : List.Pairwise geW l) : List.Pairwise geW (insertByW r l) := by
  induction l with
  | nil => simp [insertByW]
  | cons s rest ih =>
    unfold insertByW
    rcases List.pairwise_cons.mp h with ⟨hs, hrest⟩
    split_ifs with hx
    · refine List.pairwise_cons.mpr ⟨?_, h⟩
      intro b hb
      rcases List.mem_cons.mp hb with rfl | hb
      · exact le_of_lt hx
      · exact le_trans (hs _ hb) (le_of_lt hx)
    · refine List.pairwise_cons.mpr ⟨?_, ih hrest⟩
      intro b hb
      rcases List.mem_cons.mp ((insertByW_perm r rest).mem_iff.mp hb) with rfl | hb
      · exact le_of_not_lt hx
      · exact hs _ hb

/-- `sortByW` sorts by descending width. -/
theorem sortByW_pairwise (l : List Rect) : List.Pairwise geW (sortByW l) := by
  induction l with
  | nil => exact List.Pairwise.nil
  | cons r rest ih => exact insertByW_pairwise r _ ih

/-- `sortByW` permutes its input. -/
theorem sortByW_perm (l : List Rect) : List.Perm (sortByW l) l := by
  induction l with
  | nil => exact List.Perm.refl _
  | cons r rest ih =>
    exact (insertByW_perm r (sortByW rest)).trans (List.Perm.cons r ih)

/-- Claim C7: when the step-5 filter removes every candidate rectangle
but at least one existed, `paddleocr_det` emits up to the two widest
rectangles (width is the only selection key), lightly padded and
clamped, as `text_region` detections. -/
theorem det_fallback_two_widest (W H median_h : ℤ) (bt : ℚ) (mc : ℤ)
    (score : Rect → ℚ) (fm : FrameMap) (rects : List Rect)
    (hpass : detPass H median_h bt mc score fm rects 0 = [])
    (hne : rects ≠ []) :
    (paddleocr_det_select W H median_h bt mc score fm rects).length =
      min 2 rects.length ∧
    (∀ d ∈ paddleocr_det_select W H median_h bt mc score fm rects,
      d.label = "text_region") ∧
    (∀ d ∈ paddleocr_det_select W H median_h bt mc score fm rects,
      ∃ r, r ∈ rects ∧ d = fallback_det W H score fm r ∧
        rects.countP (fun r2 => decide (r.w < r2.w)) < 2) := by
  unfold paddleocr_det_select
  dsimp only
  rw [hpass, if_pos ⟨rfl, hne⟩]
  refine ⟨?_, ?_, ?_⟩
  · rw [List.length_map, List.length_take, (sortByW_perm rects).length_eq]
  · intro d hd
    rcases List.mem_map.mp hd with ⟨r, hr, rfl⟩
    rfl
  · intro d hd
    rcases List.mem_map.mp hd with ⟨r, hr, rfl⟩
    refine ⟨r, (sortByW_perm rects).mem_iff.mp (List.mem_of_mem_take hr), rfl, ?_⟩
    have hperm := (sortByW_perm rects).countP_eq (fun r2 => decide (r.w < r2.w))
    rw [← hperm]
    have hsplit : sortByW rects =
        (sortByW rects).take 2 ++ (sortByW rects).drop 2 :=
      (List.take_append_drop 2 (sortByW rects)).symm
    rw [hsplit, List.countP_append]
    have hpw : List.Pairwise geW ((sortByW rects).take 2 ++ (sortByW rects).drop 2) := by
      rw [← hsplit]; exact sortByW_pairwise rects
    rcases List.pairwise_append.mp hpw with ⟨_, _, hcross⟩
    have hdrop : ((sortByW rects).drop 2).countP (fun r2 => decide (r.w < r2.w)) = 0 := by
      rw [List.countP_eq_zero]
      intro b hb
      have hwb : b.w ≤ r.w := hcross r hr b hb
      simp only [decide_eq_true_eq]
      omega
    have htake : ((sortByW rects).take 2).countP (fun r2 => decide (r.w < r2.w)) ≤ 1 := by
      have hlen2 : ((sortByW rects).take 2).length ≤ 2 := List.length_take_le 2 _
      have hsum := List.length_eq_countP_add_countP
        (fun r2 => decide (r.w < r2.w)) ((sortByW rects).take 2)
      have hpos : 0 < ((sortByW rects).take 2).countP
          (fun a => decide (¬ (decide (r.w < a.w) = true))) := by
        rw [List.countP_pos_iff]
        refine ⟨r, hr, ?_⟩
        simp
      omega
    omega

/-- Witness for `det_fallback_two_widest`: three rectangles all killed
by the score filter; the 50- and 30-wide ones come back. -/
theorem det_fallback_two_widest_witness :
    (paddleocr_det_select 100 100 10 (1/2) 10 (fun _ => 0) ⟨1/100, 1/100, 0, 0⟩
        [⟨0, 0, 30, 10⟩, ⟨0, 20, 20, 10⟩, ⟨0, 40, 50, 10⟩]).length =
      min 2 ([⟨0, 0, 30, 10⟩, ⟨0, 20, 20, 10⟩, ⟨0, 40, 50, 10⟩] : List Rect).length ∧
    (∀ d ∈ paddleocr_det_select 100 100 10 (1/2) 10 (fun _ => 0) ⟨1/100, 1/100, 0, 0⟩
        [⟨0, 0, 30, 10⟩, ⟨0, 20, 20, 10⟩, ⟨0, 40, 50, 10⟩],
      d.label = "text_region") ∧
    (∀ d ∈ paddleocr_det_select 100 100 10 (1/2) 10 (fun _ => 0) ⟨1/100, 1/100, 0, 0⟩
        [⟨0, 0, 30, 10⟩, ⟨0, 20, 20, 10⟩, ⟨0, 40, 50, 10⟩],
      ∃ r, r ∈ ([⟨0, 0, 30, 10⟩, ⟨0, 20, 20, 10⟩, ⟨0, 40, 50, 10⟩] : List Rect) ∧
        d = fallback_det 100 100 (fun _ => 0) ⟨1/100, 1/100, 0, 0⟩ r ∧
        ([⟨0, 0, 30, 10⟩, ⟨0, 20, 20, 10⟩, ⟨0, 40, 50, 10⟩] : List Rect).countP
          (fun r2 => decide (r.w < r2.w)) < 2) :=
  det_fallback_two_widest 100 100 10 (1/2) 10 (fun _ => 0) ⟨1/100, 1/100, 0, 0⟩
    [⟨0, 0, 30, 10⟩, ⟨0, 20, 20, 10⟩, ⟨0, 40, 50, 10⟩]
    (by norm_num [detPass, detKeep, cround, min_def, max_def])
    (by decide)

/-! ## C9: iterative unclip growth bounds -/

/-- `clamp_rect_xywh` always lands inside the map with positive size. -/
theorem clamp_rect_inbounds (W H : ℤ) (hW : 1 ≤ W) (hH : 1 ≤ H) (q : Rect) :
    InBoundsRect W H (clamp_rect_xywh W H q) := by
  unfold clamp_rect_xywh InBoundsRect
  dsimp only
  omega

/-- One clamped symmetric grow step: the rectangle only moves outward,
by at most the delta on the top/left and twice the delta on width and
height, and stays related to the input. -/
theorem clamp_grow_rel (W H dx dy : ℤ) (r : Rect) (hdx : 0 ≤ dx) (hdy : 0 ≤ dy)
    (hin : InBoundsRect W H r) :
    (clamp_rect_xywh W H ⟨r.x - dx, r.y - dy, r.w + 2*dx, r.h + 2*dy⟩).x ≤ r.x ∧
    r.x - dx ≤ (clamp_rect_xywh W H ⟨r.x - dx, r.y - dy, r.w + 2*dx, r.h + 2*dy⟩).x ∧
    r.x + r.w ≤ (clamp_rect_xywh W H ⟨r.x - dx, r.y - dy, r.w + 2*dx, r.h + 2*dy⟩).x +
      (clamp_rect_xywh W H ⟨r.x - dx, r.y - dy, r.w + 2*dx, r.h + 2*dy⟩).w ∧
    (clamp_rect_xywh W H ⟨r.x - dx, r.y - dy, r.w + 2*dx, r.h + 2*dy⟩).x +
      (clamp_rect_xywh W H ⟨r.x - dx, r.y - dy, r.w + 2*dx, r.h + 2*dy⟩).w ≤
      r.x + r.w + 2*dx ∧
    (clamp_rect_xywh W H ⟨r.x - dx, r.y - dy, r.w + 2*dx, r.h + 2*dy⟩).y ≤ r.y ∧
    r.y - dy ≤ (clamp_rect_xywh W H ⟨r.x - dx, r.y - dy, r.w + 2*dx, r.h + 2*dy⟩).y ∧
    r.y + r.h ≤ (clamp_rect_xywh W H ⟨r.x - dx, r.y - dy, r.w + 2*dx, r.h + 2*dy⟩).y +
      (clamp_rect_xywh W H ⟨r.x - dx, r.y - dy, r.w + 2*dx, r.h + 2*dy⟩).h ∧
    (clamp_rect_xywh W H ⟨r.x - dx, r.y - dy, r.w + 2*dx, r.h + 2*dy⟩).y +
      (clamp_rect_xywh W H ⟨r.x - dx, r.y - dy, r.w + 2*dx, r.h + 2*dy⟩).h ≤
      r.y + r.h + 2*dy := by
  unfold InBoundsRect at hin
  unfold clamp_rect_xywh
  dsimp only
  omega

/-- Invariant of the `db_unclip_rect_iter` loop: starting in bounds
with budget `tg` spent, the result is in bounds, contains the input,
and each side grows at most by the remaining budget (twice it for the
extents). -/
theorem db_unclip_iter_loop_spec (W H maxGrow : ℤ) (ρ : ℚ)
    (hW : 1 ≤ W) (hH : 1 ≤ H) :
    ∀ (fuel : ℕ) (r : Rect) (tg : ℤ),
    InBoundsRect W H r → 0 ≤ tg → tg ≤ maxGrow →
    InBoundsRect W H (db_unclip_iter_loop W H maxGrow ρ fuel r tg) ∧
    (db_unclip_iter_loop W H maxGrow ρ fuel r tg).x ≤ r.x ∧
    (db_unclip_iter_loop W H maxGrow ρ fuel r tg).y ≤ r.y ∧
    r.x + r.w ≤ (db_unclip_iter_loop W H maxGrow ρ fuel r tg).x +
      (db_unclip_iter_loop W H maxGrow ρ fuel r tg).w ∧
    r.y + r.h ≤ (db_unclip_iter_loop W H maxGrow ρ fuel r tg).y +
      (db_unclip_iter_loop W H maxGrow ρ fuel r tg).h ∧
    r.x - (maxGrow - tg) ≤ (db_unclip_iter_loop W H maxGrow ρ fuel r tg).x ∧
    r.y - (maxGrow - tg) ≤ (db_unclip_iter_loop W H maxGrow ρ fuel r tg).y ∧
    (db_unclip_iter_loop W H maxGrow ρ fuel r tg).x +
      (db_unclip_iter_loop W H maxGrow ρ fuel r tg).w ≤
      r.x + r.w + 2*(maxGrow - tg) ∧
    (db_unclip_iter_loop W H maxGrow ρ fuel r tg).y +
      (db_unclip_iter_loop W H maxGrow ρ fuel r tg).h ≤
      r.y + r.h + 2*(maxGrow - tg) := by
  intro fuel
  induction fuel with
  | zero =>
    intro r tg hin h0 hm
    unfold db_unclip_iter_loop
    refine ⟨hin, ?_, ?_, ?_, ?_, ?_, ?_, ?_, ?_⟩ <;> omega
  | succ n ih =>
    intro r tg hin h0 hm
    unfold db_unclip_iter_loop
    dsimp only
    split_ifs with h1 h2
    · refine ⟨hin, ?_, ?_, ?_, ?_, ?_, ?_, ?_, ?_⟩ <;> omega
    · refine ⟨hin, ?_, ?_, ?_, ?_, ?_, ?_, ?_, ?_⟩ <;> omega
    · have hd1 : (1:ℤ) ≤ max 1 (cround ((r.w : ℚ) * (r.h : ℚ) /
          max 1 (((r.w + r.h : ℤ) : ℚ) * 2) * ρ)) := le_max_left _ _
      obtain ⟨b1, b2, b3, b4, b5, b6, b7, b8⟩ :=
        clamp_grow_rel W H
          (max 1 (cround ((r.w : ℚ) * (r.h : ℚ) /
            max 1 (((r.w + r.h : ℤ) : ℚ) * 2) * ρ)))
          (max 1 (cround ((r.w : ℚ) * (r.h : ℚ) /
            max 1 (((r.w + r.h : ℤ) : ℚ) * 2) * ρ)))
          r (by omega) (by omega) hin
      obtain ⟨hi, a1, a2, a3, a4, a5, a6, a7, a8⟩ :=
        ih (clamp_rect_xywh W H
            ⟨r.x - max 1 (cround ((r.w : ℚ) * (r.h : ℚ) /
                max 1 (((r.w + r.h : ℤ) : ℚ) * 2) * ρ)),
             r.y - max 1 (cround ((r.w : ℚ) * (r.h : ℚ) /
                max 1 (((r.w + r.h : ℤ) : ℚ) * 2) * ρ)),
             r.w + 2 * max 1 (cround ((r.w : ℚ) * (r.h : ℚ) /
                max 1 (((r.w + r.h : ℤ) : ℚ) * 2) * ρ)),
             r.h + 2 * max 1 (cround ((r.w : ℚ) * (r.h : ℚ) /
                max 1 (((r.w + r.h : ℤ) : ℚ) * 2) * ρ))⟩)
          (tg + max 1 (cround ((r.w : ℚ) * (r.h : ℚ) /
              max 1 (((r.w + r.h : ℤ) : ℚ) * 2) * ρ)))
          (clamp_rect_inbounds W H hW hH _) (by omega) (by omega)
      refine ⟨hi, ?_, ?_, ?_, ?_, ?_, ?_, ?_, ?_⟩ <;> omega

/-- Invariant of the `db_unclip_rect_iter_aniso` loop, with independent
X and Y budgets. -/
theorem db_unclip_aniso_loop_spec (W H maxGx maxGy : ℤ) (ρx ρy : ℚ)
    (hW : 1 ≤ W) (hH : 1 ≤ H) :
    ∀ (fuel : ℕ) (r : Rect) (accx accy : ℤ),
    InBoundsRect W H r → 0 ≤ accx → accx ≤ maxGx → 0 ≤ accy → accy ≤ maxGy →
    InBoundsRect W H (db_unclip_aniso_loop W H maxGx maxGy ρx ρy fuel r accx accy) ∧
    (db_unclip_aniso_loop W H maxGx maxGy ρx ρy fuel r accx accy).x ≤ r.x ∧
    (db_unclip_aniso_loop W H maxGx maxGy ρx ρy fuel r accx accy).y ≤ r.y ∧
    r.x + r.w ≤ (db_unclip_aniso_loop W H maxGx maxGy ρx ρy fuel r accx accy).x +
      (db_unclip_aniso_loop W H maxGx maxGy ρx ρy fuel r accx accy).w ∧
    r.y + r.h ≤ (db_unclip_aniso_loop W H maxGx maxGy ρx ρy fuel r accx accy).y +
      (db_unclip_aniso_loop W H maxGx maxGy ρx ρy fuel r accx accy).h ∧
    r.x - (maxGx - accx) ≤ (db_unclip_aniso_loop W H maxGx maxGy ρx ρy fuel r accx accy).x ∧
    r.y - (maxGy - accy) ≤ (db_unclip_aniso_loop W H maxGx maxGy ρx ρy fuel r accx accy).y ∧
    (db_unclip_aniso_loop W H maxGx maxGy ρx ρy fuel r accx accy).x +
      (db_unclip_aniso_loop W H maxGx maxGy ρx ρy fuel r accx accy).w ≤
      r.x + r.w + 2*(maxGx - accx) ∧
    (db_unclip_aniso_loop W H maxGx maxGy ρx ρy fuel r accx accy).y +
      (db_unclip_aniso_loop W H maxGx maxGy ρx ρy fuel r accx accy).h ≤
      r.y + r.h + 2*(maxGy - accy) := by
  intro fuel
  induction fuel with
  | zero =>
    intro r accx accy hin hx0 hxm hy0 hym
    unfold db_unclip_aniso_loop
    refine ⟨hin, ?_, ?_, ?_, ?_, ?_, ?_, ?_, ?_⟩ <;> omega
  | succ n ih =>
    intro r accx accy hin hx0 hxm hy0 hym
    unfold db_unclip_aniso_loop
    dsimp only
    split_ifs with h1
    · refine ⟨hin, ?_, ?_, ?_, ?_, ?_, ?_, ?_, ?_⟩ <;> omega
    · obtain ⟨b1, b2, b3, b4, b5, b6, b7, b8⟩ :=
        clamp_grow_rel W H
          (min (max 1 (cround ((r.w : ℚ) * (r.h : ℚ) /
            max 1 (((r.w + r.h : ℤ) : ℚ) * 2) * ρx))) (max 0 (maxGx - accx)))
          (min (max 1 (cround ((r.w : ℚ) * (r.h : ℚ) /
            max 1 (((r.w + r.h : ℤ) : ℚ) * 2) * ρy))) (max 0 (maxGy - accy)))
          r (by omega) (by omega) hin
      obtain ⟨hi, a1, a2, a3, a4, a5, a6, a7, a8⟩ :=
        ih (clamp_rect_xywh W H
            ⟨r.x - min (max 1 (cround ((r.w : ℚ) * (r.h : ℚ) /
                max 1 (((r.w + r.h : ℤ) : ℚ) * 2) * ρx))) (max 0 (maxGx - accx)),
             r.y - min (max 1 (cround ((r.w : ℚ) * (r.h : ℚ) /
                max 1 (((r.w + r.h : ℤ) : ℚ) * 2) * ρy))) (max 0 (maxGy - accy)),
             r.w + 2 * min (max 1 (cround ((r.w : ℚ) * (r.h : ℚ) /
                max 1 (((r.w + r.h : ℤ) : ℚ) * 2) * ρx))) (max 0 (maxGx - accx)),
             r.h + 2 * min (max 1 (cround ((r.w : ℚ) * (r.h : ℚ) /
                max 1 (((r.w + r.h : ℤ) : ℚ) * 2) * ρy))) (max 0 (maxGy - accy))⟩)
          (accx + min (max 1 (cround ((r.w : ℚ) * (r.h : ℚ) /
              max 1 (((r.w + r.h : ℤ) : ℚ) * 2) * ρx))) (max 0 (maxGx - accx)))
          (accy + min (max 1 (cround ((r.w : ℚ) * (r.h : ℚ) /
              max 1 (((r.w + r.h : ℤ) : ℚ) * 2) * ρy))) (max 0 (maxGy - accy)))
          (clamp_rect_inbounds W H hW hH _) (by omega) (by omega) (by omega) (by omega)
      refine ⟨hi, ?_, ?_, ?_, ?_, ?_, ?_, ?_, ?_⟩ <;> omega

/-- Claim C9: both unclip helpers grow the rectangle outward by a
per-iteration delta proportional to area/perimeter, keep it inside the
W×H map, and cap total growth — `db_unclip_rect_iter` by
`max(1, round(max(W,H) * frac))` on every side, the anisotropic variant
by the per-axis budgets `max(1, round(W * frac_x))` and
`max(1, round(H * frac_y))`. -/
theorem db_unclip_grow_bounds (r : Rect) (ρ ρx ρy : ℚ) (iters : ℤ)
    (W H : ℤ) (frac fracx fracy : ℚ)
    (hW : 1 ≤ W) (hH : 1 ≤ H) (hin : InBoundsRect W H r) :
    (InBoundsRect W H (db_unclip_rect_iter r ρ iters W H frac) ∧
     (db_unclip_rect_iter r ρ iters W H frac).x ≤ r.x ∧
     (db_unclip_rect_iter r ρ iters W H frac).y ≤ r.y ∧
     r.x + r.w ≤ (db_unclip_rect_iter r ρ iters W H frac).x +
       (db_unclip_rect_iter r ρ iters W H frac).w ∧
     r.y + r.h ≤ (db_unclip_rect_iter r ρ iters W H frac).y +
       (db_unclip_rect_iter r ρ iters W H frac).h ∧
     r.x - iterMaxGrow W H frac ≤ (db_unclip_rect_iter r ρ iters W H frac).x ∧
     r.y - iterMaxGrow W H frac ≤ (db_unclip_rect_iter r ρ iters W H frac).y ∧
     (db_unclip_rect_iter r ρ iters W H frac).x +
       (db_unclip_rect_iter r ρ iters W H frac).w ≤
       r.x + r.w + 2 * iterMaxGrow W H frac ∧
     (db_unclip_rect_iter r ρ iters W H frac).y +
       (db_unclip_rect_iter r ρ iters W H frac).h ≤
       r.y + r.h + 2 * iterMaxGrow W H frac) ∧
    (InBoundsRect W H (db_unclip_rect_iter_aniso r ρx ρy iters W H fracx fracy) ∧
     (db_unclip_rect_iter_aniso r ρx ρy iters W H fracx fracy).x ≤ r.x ∧
     (db_unclip_rect_iter_aniso r ρx ρy iters W H fracx fracy).y ≤ r.y ∧
     r.x + r.w ≤ (db_unclip_rect_iter_aniso r ρx ρy iters W H fracx fracy).x +
       (db_unclip_rect_iter_aniso r ρx ρy iters W H fracx fracy).w ∧
     r.y + r.h ≤ (db_unclip_rect_iter_aniso r ρx ρy iters W H fracx fracy).y +
       (db_unclip_rect_iter_aniso r ρx ρy iters W H fracx fracy).h ∧
     r.x - anisoMaxGx W fracx ≤
       (db_unclip_rect_iter_aniso r ρx ρy iters W H fracx fracy).x ∧
     r.y - anisoMaxGy H fracy ≤
       (db_unclip_rect_iter_aniso r ρx ρy iters W H fracx fracy).y ∧
     (db_unclip_rect_iter_aniso r ρx ρy iters W H fracx fracy).x +
       (db_unclip_rect_iter_aniso r ρx ρy iters W H fracx fracy).w ≤
       r.x + r.w + 2 * anisoMaxGx W fracx ∧
     (db_unclip_rect_iter_aniso r ρx ρy iters W H fracx fracy).y +
       (db_unclip_rect_iter_aniso r ρx ρy iters W H fracx fracy).h ≤
       r.y + r.h + 2 * anisoMaxGy H fracy) := by
  have hne : ¬ (r.w ≤ 0 ∨ r.h ≤ 0) := by
    unfold InBoundsRect at hin
    omega
  have hMG1 : (1:ℤ) ≤ iterMaxGrow W H frac := le_max_left _ _
  have hGX1 : (1:ℤ) ≤ anisoMaxGx W fracx := le_max_left _ _
  have hGY1 : (1:ℤ) ≤ anisoMaxGy H fracy := le_max_left _ _
  constructor
  · unfold db_unclip_rect_iter
    rw [if_neg hne]
    obtain ⟨hi, a1, a2, a3, a4, a5, a6, a7, a8⟩ :=
      db_unclip_iter_loop_spec W H (iterMaxGrow W H frac) ρ hW hH iters.toNat
        r 0 hin (le_refl 0) (by omega)
    refine ⟨hi, a1, a2, a3, a4, ?_, ?_, ?_, ?_⟩ <;> omega
  · unfold db_unclip_rect_iter_aniso
    rw [if_neg hne]
    obtain ⟨hi, a1, a2, a3, a4, a5, a6, a7, a8⟩ :=
      db_unclip_aniso_loop_spec W H (anisoMaxGx W fracx) (anisoMaxGy H fracy)
        ρx ρy hW hH iters.toNat r 0 0 hin (le_refl 0) (by omega) (le_refl 0)
        (by omega)
    refine ⟨hi, a1, a2, a3, a4, ?_, ?_, ?_, ?_⟩ <;> omega

/-- Witness for `db_unclip_grow_bounds` on a 100×100 map. -/
theorem db_unclip_grow_bounds_witness :
    InBoundsRect 100 100 (db_unclip_rect_iter ⟨10, 10, 20, 10⟩ (1/2) 2 100 100 (1/5)) ∧
    InBoundsRect 100 100
      (db_unclip_rect_iter_aniso ⟨10, 10, 20, 10⟩ (1/2) (1/2) 2 100 100
        (15/100) (8/100)) :=
  ⟨(db_unclip_grow_bounds ⟨10, 10, 20, 10⟩ (1/2) (1/2) (1/2) 2 100 100 (1/5)
      (15/100) (8/100) (by decide) (by decide) (by decide)).1.1,
   (db_unclip_grow_bounds ⟨10, 10, 20, 10⟩ (1/2) (1/2) (1/2) 2 100 100 (1/5)
      (15/100) (8/100) (by decide) (by decide) (by decide)).2.1⟩

/-! ## C10: crop_text_regions_filter preserves the detections -/

/-- Filtering out the detection-typed objects leaves no detections. -/
theorem get_hailo_detections_filter_out (objs : List RoiObj) :
    get_hailo_detections (objs.filter fun o => !o.isDet) = [] := by
  induction objs with
  | nil => rfl
  | cons o rest ih =>
    cases o <;> simpa [get_hailo_detections, RoiObj.isDet, RoiObj.detOf,
      List.filter] using ih

/-- Re-adding a list of detections yields exactly that list. -/
theorem get_hailo_detections_map_det (l : List Detection) :
    get_hailo_detections (l.map RoiObj.det) = l := by
  induction l with
  | nil => rfl
  | cons d rest ih =>
    simpa [get_hailo_detections, RoiObj.detOf] using ih

/-- Claim C10: `crop_text_regions_filter` leaves the detections of the
ROI unchanged — it removes every detection and re-adds all of them,
with no label-based filtering. -/
theorem crop_text_regions_filter_preserves (objs : List RoiObj) :
    get_hailo_detections (crop_text_regions_filter objs) =
      get_hailo_detections objs := by
  unfold crop_text_regions_filter
  rw [get_hailo_detections, List.filterMap_append]
  rw [← get_hailo_detections, ← get_hailo_detections]
  rw [get_hailo_detections_filter_out, get_hailo_detections_map_det,
    List.nil_append]

end Ocr
